import Mathlib

/-!
Verification of the SMART Health Check-in client library
(`smart-health-checkin.ts`, richer OID4VP profile, and `shl.js`, simple
profile).  The definitions below are a shallow embedding of the
JavaScript/TypeScript source: JSON runtime values are modelled by an
inductive `Json` (numbers restricted to integers, which covers every
envelope the protocol produces), the possibly-`undefined` results of
property access and array indexing by `JsVal`, and host primitives
(`JSON.parse`/`JSON.stringify`, `TextEncoder`/`TextDecoder`,
`btoa`/`atob`, `URLSearchParams`) by executable reference
implementations of their standard semantics.
-/

/-- JSON values as produced by `JSON.parse`.  Object fields are kept in
insertion order (mirroring JavaScript object-entry order); numbers are
modelled as integers, which covers all envelope payloads of the
protocol (versions, artifact indices). -/
inductive Json where
  | null : Json
  | bool (b : Bool) : Json
  | num (n : Int) : Json
  | str (s : String) : Json
  | arr (elems : List Json) : Json
  | obj (fields : List (String × Json)) : Json


/-- A JavaScript runtime value that may be `undefined` (e.g. the result
of an out-of-range array index or a missing property). -/
inductive JsVal where
  | undefined : JsVal
  | val (j : Json) : JsVal


/-- JavaScript truthiness of a possibly-undefined JSON value:
`undefined`, `null`, `false`, `0` and the empty string are falsy;
every object and array (even empty) is truthy. -/
def jsTruthy : JsVal → Bool
  | .undefined => false
  | .val .null => false
  | .val (.bool b) => b
  | .val (.num n) => n != 0
  | .val (.str s) => s != ""
  | .val (.arr _) => true
  | .val (.obj _) => true

/-- JavaScript `a || b`: the first operand when truthy, else the second. -/
def jsOr (a b : JsVal) : JsVal := if jsTruthy a then a else b

/-- Property access `o?.f` on a JSON value: object lookup, `undefined`
for missing fields and for non-objects. -/
def getField (j : Json) (f : String) : JsVal :=
  match j with
  | .obj fields =>
    match fields.find? (fun p => p.1 = f) with
    | some p => .val p.2
    | none => .undefined
  | _ => .undefined

/-- JavaScript array indexing `xs[i]` with a numeric index: the element
when `0 <= i < length`, `undefined` otherwise (never an exception). -/
def arrIndex (xs : List Json) (i : Int) : JsVal :=
  if h : 0 ≤ i ∧ i.toNat < xs.length then .val (xs.get ⟨i.toNat, h.2⟩) else .undefined

/-- One entry of a `vp_token` presentation list (`{ artifact: number }`). -/
structure Presentation where
  artifact : Int


/-- The raw success response delivered over the relay
(`{ state, vp_token, smart_artifacts }`).  `vp_token` maps credential
ids to presentation lists (object entries, insertion-ordered);
`smart_artifacts` is the flat artifact array, each artifact kept as the
raw JSON object it was parsed from. -/
structure RawResponse where
  state : String
  vp_token : List (String × List Presentation)
  smart_artifacts : List Json


/-- `rehydrateResponse`'s result: the input response's fields plus the
`credentials` convenience mapping. -/
structure RehydratedResponse where
  state : String
  vp_token : List (String × List Presentation)
  smart_artifacts : List Json
  credentials : List (String × List JsVal)


/-- Body of the arrow function inside `rehydrateResponse`:
`const artifact = response.smart_artifacts[presentation.artifact];
 return artifact?.data !== undefined ? artifact.data : artifact;` -/
def resolveArtifact (arts : List Json) (p : Presentation) : JsVal :=
  match arrIndex arts p.artifact with
  | .undefined => .undefined
  | .val a =>
    match getField a "data" with
    | .undefined => .val a
    | .val d => .val d

/-- `rehydrateResponse(response)`: for each `[id, presentations]` of
`Object.entries(response.vp_token)`, map each presentation to its
resolved artifact data, and return `{...response, credentials}`. -/
def rehydrateResponse (r : RawResponse) : RehydratedResponse :=
  { state := r.state
    vp_token := r.vp_token
    smart_artifacts := r.smart_artifacts
    credentials :=
      r.vp_token.map (fun e => (e.1, e.2.map (resolveArtifact r.smart_artifacts))) }

/-- Model of a single item of `dcqlQuery.credentials`.  Only the id is
kept: the engine never reads `format`, `optional` or `meta` — they are
opaque payload serialized into the outgoing URL. -/
structure CredentialQuery where
  id : String

/-- `DCQLQuery`: an object with a `credentials` array. -/
structure DCQLQuery where
  credentials : List CredentialQuery

/-- Model of `RequestOptions`.  `rehydrate` and `timeout` are `Option`
to model absent fields; the `onRequestStart` callback is omitted (it is
invoked for logging only and never influences the engine). -/
structure RequestOptions where
  checkinBase : String
  rehydrate : Option Bool
  timeout : Option Nat

/-- `const timeout = opts.timeout ?? 2 * 60 * 1000;` -/
def effectiveTimeout (opts : RequestOptions) : Nat :=
  opts.timeout.getD 120000

/-- `opts.checkinBase.replace(/\/+$/, '')`: strip every trailing `/`. -/
def stripTrailingSlashes (s : String) : String :=
  ⟨(s.data.reverse.dropWhile (fun c => c = '/')).reverse⟩

/-- A relay message (`ev.data`) as the handler reads it: each field is
a possibly-absent JSON value.  A delivered `ev.data` that is itself a
falsy primitive is modelled as `none` at the delivery site. -/
structure RelayMsg where
  state : JsVal
  error : JsVal
  error_description : JsVal
  vp_token : JsVal
  smart_artifacts : JsVal

/-- `msg.state !== state` (negated): strict equality of `msg.state`
against the expected correlation string succeeds only when the field is
that exact string. -/
def stateMatches (m : RelayMsg) (expected : String) : Bool :=
  match m.state with
  | .val (.str s) => s == expected
  | _ => false

/-- The settlement status of the promise returned by `request`.  A
resolution records the raw triple taken from the winning message and
whether rehydration was requested (`shouldRehydrate`); the promise value
is then `rehydrateResponse` of that triple exactly when the flag is set.
A rejection records `err.code = msg.error`,
`err.message = msg.error_description || msg.error` and
`err.state = msg.state`; `timedOut` is the distinct
`reject(new Error('Request timeout'))` outcome. -/
inductive Outcome where
  | pending : Outcome
  | resolvedWith (state vp sa : JsVal) (rehydrated : Bool) : Outcome
  | rejectedWith (code message errState : JsVal) : Outcome
  | timedOut : Outcome

/-- State of one pending exchange right after `window.open` succeeded:
the promise is pending, the timer armed with the configured delay, the
BroadcastChannel subscribed, the popup open. -/
structure ExchState where
  outcome : Outcome
  timerActive : Bool
  chanOpen : Bool
  popupOpen : Bool
  timerDelay : Nat

def initExchange (opts : RequestOptions) : ExchState :=
  { outcome := .pending, timerActive := true, chanOpen := true,
    popupOpen := true, timerDelay := effectiveTimeout opts }

/-- `cleanup()`: `clearTimeout(timeoutId); chan.close();` and close the
popup if still open. -/
def cleanupEx (st : ExchState) : ExchState :=
  { st with timerActive := false, chanOpen := false, popupOpen := false }

/-- One `chan.onmessage` delivery.  A closed channel delivers nothing;
`if (!msg || msg.state !== state) return;` ignores falsy data and
mismatched state; a truthy `msg.error` rejects after cleanup; a message
carrying truthy `msg.vp_token` and `msg.smart_artifacts` resolves after
cleanup; anything else falls through with no effect. -/
def deliver (expected : String) (rehy : Bool) (st : ExchState)
    (data : Option RelayMsg) : ExchState :=
  if !st.chanOpen then st
  else
    match data with
    | none => st
    | some msg =>
      if !stateMatches msg expected then st
      else if jsTruthy msg.error then
        { cleanupEx st with
            outcome := .rejectedWith msg.error
              (jsOr msg.error_description msg.error) msg.state }
      else if jsTruthy msg.vp_token && jsTruthy msg.smart_artifacts then
        { cleanupEx st with
            outcome := .resolvedWith msg.state msg.vp_token
              msg.smart_artifacts rehy }
      else st

/-- Deliver a whole sequence of relay messages in order. -/
def processMsgs (expected : String) (rehy : Bool) (st : ExchState)
    (msgs : List (Option RelayMsg)) : ExchState :=
  msgs.foldl (deliver expected rehy) st

/-- A message is decisive when its state matches and its content is
well-formed: a truthy error, or truthy `vp_token` and
`smart_artifacts`. -/
def decisive (expected : String) : Option RelayMsg → Bool
  | none => false
  | some m =>
    stateMatches m expected &&
      (jsTruthy m.error || (jsTruthy m.vp_token && jsTruthy m.smart_artifacts))

/-- The timer callback: `cleanup(); reject(new Error('Request timeout'))`.
It only runs if the timer was not cleared by an earlier settlement. -/
def fireTimeout (st : ExchState) : ExchState :=
  if st.timerActive then { cleanupEx st with outcome := .timedOut } else st

/-- A full exchange: the messages delivered before the timer deadline,
then the timer firing (a no-op when a message already settled). -/
def runExchange (expected : String) (rehy : Bool) (opts : RequestOptions)
    (msgs : List (Option RelayMsg)) : ExchState :=
  fireTimeout (processMsgs expected rehy (initExchange opts) msgs)

/-- Side effects performed by `request` before a synchronous throw:
whether a state token was generated, the BroadcastChannel created,
whether it is still open, and whether `window.open` was attempted. -/
structure SideFx where
  stateGenerated : Bool
  chanCreated : Bool
  chanOpen : Bool
  popupAttempted : Bool

/-- Result of a `request` call: `thrownR` models the async function
rejecting synchronously (before any relay message or timer could run);
`asyncR` models the returned pending promise settling later. -/
inductive RequestResult where
  | thrownR (msg : String) (fx : SideFx) : RequestResult
  | asyncR (final : ExchState) : RequestResult

/-- `request(dcqlQuery, opts)`.  The query argument is `Option` so that
`none` models `!dcqlQuery || !Array.isArray(dcqlQuery.credentials)`
(null, or an object without a credentials array); `stateTok` stands for
the generated random state, `popupOpens` for whether `window.open`
returned a handle, and `msgs` for the relay traffic of the exchange.
Mirrors the source order: validate `checkinBase`, validate the query
shape, generate state, create the channel and timer, open the popup —
on failure close the channel and throw — else await the exchange. -/
def runRequest (q : Option DCQLQuery) (opts : RequestOptions)
    (stateTok : String) (popupOpens : Bool)
    (msgs : List (Option RelayMsg)) : RequestResult :=
  let base := stripTrailingSlashes opts.checkinBase
  if base = "" then
    .thrownR "checkinBase required"
      { stateGenerated := false, chanCreated := false, chanOpen := false,
        popupAttempted := false }
  else
    match q with
    | none =>
      .thrownR "dcqlQuery must be an object with a credentials array"
        { stateGenerated := false, chanCreated := false, chanOpen := false,
          popupAttempted := false }
    | some _ =>
      let rehy := opts.rehydrate != some false
      if popupOpens then .asyncR (runExchange stateTok rehy opts msgs)
      else
        .thrownR "Popup blocked - please allow popups for this site"
          { stateGenerated := true, chanCreated := true, chanOpen := false,
            popupAttempted := true }

/-! ### JSON serialization (model of `JSON.stringify` and `JSON.parse`)

The library's envelope codec and hash parser call the host's JSON
primitives.  These are modelled by an executable printer and
recursive-descent parser over the `Json` type above: the printer
mirrors `JSON.stringify` (no insignificant whitespace, standard string
escaping), the parser accepts the JSON grammar restricted to integer
numerals and non-surrogate escapes, skipping standard whitespace. -/

/-- The insignificant whitespace characters of the JSON grammar. -/
def isJsonWs (c : Char) : Bool :=
  c = ' ' || c = Char.ofNat 9 || c = Char.ofNat 10 || c = Char.ofNat 13

def skipWs : List Char → List Char
  | [] => []
  | c :: rest => if isJsonWs c then skipWs rest else c :: rest

def lbraceChar : Char := Char.ofNat 123

def rbraceChar : Char := Char.ofNat 125

def digitChar (d : Nat) : Char := Char.ofNat (48 + d)

/-- Decimal numeral of a natural number, most significant digit first. -/
def printNat (n : Nat) : List Char :=
  if n = 0 then ['0'] else (Nat.digits 10 n).reverse.map digitChar

/-- Decimal numeral of an integer. -/
def printInt (i : Int) : List Char :=
  if i < 0 then '-' :: printNat i.natAbs else printNat i.toNat

/-- Lowercase hexadecimal digit, as emitted by `JSON.stringify`
escapes. -/
def hexDigitChar (d : Nat) : Char :=
  if d < 10 then Char.ofNat (48 + d) else Char.ofNat (87 + d)

/-- `JSON.stringify` escaping of one string character: quote and
backslash escaped, the named control escapes, `\u00xx` for the other
control characters, every other character literal. -/
def escapeChar (c : Char) : List Char :=
  if c = '"' then ['\\', '"']
  else if c = '\\' then ['\\', '\\']
  else if c = Char.ofNat 8 then ['\\', 'b']
  else if c = Char.ofNat 9 then ['\\', 't']
  else if c = Char.ofNat 10 then ['\\', 'n']
  else if c = Char.ofNat 12 then ['\\', 'f']
  else if c = Char.ofNat 13 then ['\\', 'r']
  else if c.toNat < 32 then
    ['\\', 'u', '0', '0', hexDigitChar (c.toNat / 16), hexDigitChar (c.toNat % 16)]
  else [c]

/-- A JSON string literal, quotes included. -/
def printStr (s : String) : List Char :=
  '"' :: s.data.flatMap escapeChar ++ ['"']

mutual

/-- `JSON.stringify` (whitespace-free canonical output). -/
def printJ : Json → List Char
  | .num i => printInt i
  | .null => ['n', 'u', 'l', 'l']
  | .str s => printStr s
  | .bool b => if b then ['t', 'r', 'u', 'e'] else ['f', 'a', 'l', 's', 'e']
  | .arr es => '[' :: printElems es ++ [']']
  | .obj fs => lbraceChar :: printFields fs ++ [rbraceChar]

def printElems : List Json → List Char
  | [] => []
  | [e] => printJ e
  | e :: es => printJ e ++ ',' :: printElems es

def printFields : List (String × Json) → List Char
  | [] => []
  | [(k, v)] => printStr k ++ ':' :: printJ v
  | (k, v) :: fs => printStr k ++ ':' :: printJ v ++ ',' :: printFields fs

end

def stringifyJ (j : Json) : String := ⟨printJ j⟩

/-- Hexadecimal digit value (JSON `\u` escapes accept both cases). -/
def parseHex (c : Char) : Option Nat :=
  if '0' ≤ c ∧ c ≤ '9' then some (c.toNat - 48)
  else if 'a' ≤ c ∧ c ≤ 'f' then some (c.toNat - 87)
  else if 'A' ≤ c ∧ c ≤ 'F' then some (c.toNat - 55)
  else none

/-- Longest leading run of decimal digits, as digit values. -/
def takeDigits : List Char → List Nat × List Char
  | [] => ([], [])
  | c :: rest =>
    if c.isDigit then
      let p := takeDigits rest
      ((c.toNat - 48) :: p.1, p.2)
    else ([], c :: rest)

/-- Value of a most-significant-first digit list. -/
def digitsToNat (ds : List Nat) : Nat :=
  ds.foldl (fun a d => a * 10 + d) 0

/-- The single-character string escapes of the JSON grammar. -/
def unescape1 (e : Char) : Option Char :=
  if e = '"' ∨ e = '\\' ∨ e = '/' then some e
  else if e = 'b' then some (Char.ofNat 8)
  else if e = 't' then some (Char.ofNat 9)
  else if e = 'n' then some (Char.ofNat 10)
  else if e = 'f' then some (Char.ofNat 12)
  else if e = 'r' then some (Char.ofNat 13)
  else none

mutual

/-- Body of a JSON string literal after the opening quote: the decoded
characters and the input after the closing quote.  Surrogate `\u`
escapes are not composed into pairs (the printer never emits them). -/
def parseStringBody : List Char → Option (List Char × List Char)
  | [] => none
  | c :: rest =>
    if c = '"' then some ([], rest)
    else if c = '\\' then parseEscape rest
    else if c.toNat < 32 then none
    else
      match parseStringBody rest with
      | some (cs, r) => some (c :: cs, r)
      | none => none

/-- The input after a backslash inside a string literal. -/
def parseEscape : List Char → Option (List Char × List Char)
  | [] => none
  | e :: rest2 =>
    if e = 'u' then
      match rest2 with
      | [] => none
      | h1 :: r1 =>
        match r1 with
        | [] => none
        | h2 :: r2 =>
          match r2 with
          | [] => none
          | h3 :: r3 =>
            match r3 with
            | [] => none
            | h4 :: rest3 =>
              match parseHex h1, parseHex h2, parseHex h3, parseHex h4 with
              | some a, some b, some c2, some d =>
                let v := ((a * 16 + b) * 16 + c2) * 16 + d
                if v < 55296 ∨ 57343 < v then
                  match parseStringBody rest3 with
                  | some (cs, r) => some (Char.ofNat v :: cs, r)
                  | none => none
                else none
              | _, _, _, _ => none
    else
      match unescape1 e with
      | some c =>
        match parseStringBody rest2 with
        | some (cs, r) => some (c :: cs, r)
        | none => none
      | none => none

end

/-- Match an expected literal character sequence. -/
def expectChars : List Char → List Char → Option (List Char)
  | [], rest => some rest
  | e :: es, c :: rest => if c = e then expectChars es rest else none
  | _ :: _, [] => none

mutual

/-- One JSON value (fueled recursive descent; the entry points supply
fuel exceeding any parseable value's size). -/
def parseVal : Nat → List Char → Option (Json × List Char)
  | 0, _ => none
  | fuel + 1, cs =>
    match cs with
    | [] => none
    | c :: rest =>
      if c = 'n' then
        match expectChars ['u', 'l', 'l'] rest with
        | some r => some (.null, r)
        | none => none
      else if c = 't' then
        match expectChars ['r', 'u', 'e'] rest with
        | some r => some (.bool true, r)
        | none => none
      else if c = 'f' then
        match expectChars ['a', 'l', 's', 'e'] rest with
        | some r => some (.bool false, r)
        | none => none
      else if c = '"' then
        match parseStringBody rest with
        | some (sc, r) => some (.str ⟨sc⟩, r)
        | none => none
      else if c = '[' then
        match skipWs rest with
        | c2 :: r2 =>
          if c2 = ']' then some (.arr [], r2)
          else
            match parseElems fuel (c2 :: r2) with
            | some (es, r) => some (.arr es, r)
            | none => none
        | [] => none
      else if c = lbraceChar then
        match skipWs rest with
        | c2 :: r2 =>
          if c2 = rbraceChar then some (.obj [], r2)
          else
            match parseFields fuel (c2 :: r2) with
            | some (fs, r) => some (.obj fs, r)
            | none => none
        | [] => none
      else if c = '-' then
        match takeDigits rest with
        | (d :: ds, r) => some (.num (-(digitsToNat (d :: ds) : Int)), r)
        | ([], _) => none
      else if c.isDigit then
        match takeDigits (c :: rest) with
        | (ds, r) => some (.num (digitsToNat ds : Int), r)
      else none

/-- Comma-separated array elements up to the closing bracket. -/
def parseElems : Nat → List Char → Option (List Json × List Char)
  | 0, _ => none
  | fuel + 1, cs =>
    match parseVal fuel (skipWs cs) with
    | none => none
    | some (j, r) =>
      match skipWs r with
      | c :: r2 =>
        if c = ',' then
          match parseElems fuel r2 with
          | some (js, r3) => some (j :: js, r3)
          | none => none
        else if c = ']' then some ([j], r2)
        else none
      | [] => none

/-- Comma-separated object members up to the closing brace. -/
def parseFields : Nat → List Char → Option (List (String × Json) × List Char)
  | 0, _ => none
  | fuel + 1, cs =>
    match skipWs cs with
    | c :: rest =>
      if c = '"' then
        match parseStringBody rest with
        | some (k, r) =>
          match skipWs r with
          | c2 :: r2 =>
            if c2 = ':' then
              match parseVal fuel (skipWs r2) with
              | some (v, r3) =>
                match skipWs r3 with
                | c3 :: r4 =>
                  if c3 = ',' then
                    match parseFields fuel r4 with
                    | some (fs, r5) => some ((⟨k⟩, v) :: fs, r5)
                    | none => none
                  else if c3 = rbraceChar then some ([(⟨k⟩, v)], r4)
                  else none
                | [] => none
              | none => none
            else none
          | [] => none
        | none => none
      else none
    | [] => none

end

mutual

/-- Number of JSON nodes; a lower bound for the parser fuel. -/
def jsize : Json → Nat
  | .null => 1
  | .bool _ => 1
  | .num _ => 1
  | .str _ => 1
  | .arr es => jsizeList es + 1
  | .obj fs => jsizeFields fs + 1

def jsizeList : List Json → Nat
  | [] => 0
  | e :: es => jsize e + jsizeList es + 1

def jsizeFields : List (String × Json) → Nat
  | [] => 0
  | (_, v) :: fs => jsize v + jsizeFields fs + 1

end

/-- `JSON.parse`: parse one value surrounded by optional whitespace;
any other input is a thrown `SyntaxError`, modelled as `none`. -/
def jsonParse (s : String) : Option Json :=
  match parseVal (s.data.length + 1) (skipWs s.data) with
  | some (j, r) => if skipWs r = [] then some j else none
  | none => none

/-- The continuation after a serialized value never starts with a
decimal digit (it is empty or starts with a separator), so numeral
parsing stops in the right place. -/
def noDigitHead : List Char → Prop
  | [] => True
  | c :: _ => c.isDigit = false

/-! ### UTF-8 (model of `TextEncoder` / `TextDecoder`) -/

/-- `TextEncoder`: UTF-8 bytes of one Unicode scalar value. -/
def utf8EncodeChar (c : Char) : List Nat :=
  let v := c.toNat
  if v < 128 then [v]
  else if v < 2048 then [192 + v / 64, 128 + v % 64]
  else if v < 65536 then
    [224 + v / 4096, 128 + v / 64 % 64, 128 + v % 64]
  else
    [240 + v / 262144, 128 + v / 4096 % 64, 128 + v / 64 % 64, 128 + v % 64]

def utf8Encode (s : String) : List Nat := s.data.flatMap utf8EncodeChar

/-- U+FFFD, the replacement character substituted by a non-fatal
`TextDecoder` for malformed input. -/
def replChar : Char := Char.ofNat 65533

/-- `TextDecoder` (default, non-fatal): UTF-8 decoding with
replacement-character substitution on malformed sequences.  The exact
resynchronization on malformed input is a best-effort model; every
well-formed encoding decodes exactly. -/
def utf8DecodeChars : List Nat → List Char
  | [] => []
  | b :: rest =>
    if b < 128 then Char.ofNat b :: utf8DecodeChars rest
    else if b < 194 then replChar :: utf8DecodeChars rest
    else if b < 224 then
      match rest with
      | [] => [replChar]
      | b1 :: rest1 =>
        if 128 ≤ b1 ∧ b1 < 192 then
          Char.ofNat ((b - 192) * 64 + (b1 - 128)) :: utf8DecodeChars rest1
        else replChar :: utf8DecodeChars (b1 :: rest1)
    else if b < 240 then
      match rest with
      | [] => [replChar]
      | b1 :: rest1 =>
        match rest1 with
        | [] => [replChar, replChar]
        | b2 :: rest2 =>
          if 128 ≤ b1 ∧ b1 < 192 ∧ 128 ≤ b2 ∧ b2 < 192 then
            let v := (b - 224) * 4096 + (b1 - 128) * 64 + (b2 - 128)
            if 2048 ≤ v ∧ (v < 55296 ∨ 57343 < v) then
              Char.ofNat v :: utf8DecodeChars rest2
            else replChar :: utf8DecodeChars rest2
          else replChar :: utf8DecodeChars (b1 :: b2 :: rest2)
    else if b < 245 then
      match rest with
      | [] => [replChar]
      | b1 :: rest1 =>
        match rest1 with
        | [] => [replChar, replChar]
        | b2 :: rest2 =>
          match rest2 with
          | [] => [replChar, replChar, replChar]
          | b3 :: rest3 =>
            if 128 ≤ b1 ∧ b1 < 192 ∧ 128 ≤ b2 ∧ b2 < 192 ∧
                128 ≤ b3 ∧ b3 < 192 then
              let v := (b - 240) * 262144 + (b1 - 128) * 4096 +
                (b2 - 128) * 64 + (b3 - 128)
              if 65536 ≤ v ∧ v < 1114112 then
                Char.ofNat v :: utf8DecodeChars rest3
              else replChar :: utf8DecodeChars rest3
            else replChar :: utf8DecodeChars (b1 :: b2 :: b3 :: rest3)
    else replChar :: utf8DecodeChars rest

/-! ### base64url codec (`b64u` / `ub64` from the source, over models of
the host `btoa` / `atob`) -/

def stdAlphabet : List Char :=
  "ABCDEFGHIJKLMNOPQRSTUVWXYZabcdefghijklmnopqrstuvwxyz0123456789+/".data

def b64Char (v : Nat) : Char := stdAlphabet.getD v 'A'

def b64CharVal (c : Char) : Option Nat :=
  stdAlphabet.findIdx? (fun x => x = c)

/-- The sextet stream of `btoa`: 3 bytes to 4 sextets, with the
standard 1- and 2-byte tails. -/
def btoaChunks : List Nat → List Nat
  | [] => []
  | [b0] => [b0 / 4, b0 % 4 * 16]
  | [b0, b1] => [b0 / 4, b0 % 4 * 16 + b1 / 16, b1 % 16 * 4]
  | b0 :: b1 :: b2 :: rest =>
    b0 / 4 :: (b0 % 4 * 16 + b1 / 16) :: (b1 % 16 * 4 + b2 / 64) ::
      b2 % 64 :: btoaChunks rest

/-- `btoa` of a byte sequence (the source first turns the buffer into a
binary string with `String.fromCharCode`; the model works on the bytes
directly): base64 characters plus `=` padding. -/
def btoa (bs : List Nat) : List Char :=
  (btoaChunks bs).map b64Char ++
    (if bs.length % 3 = 1 then ['=', '=']
     else if bs.length % 3 = 2 then ['='] else [])

def toUrlSafe (c : Char) : Char :=
  if c = '+' then '-' else if c = '/' then '_' else c

def fromUrlSafe (c : Char) : Char :=
  if c = '-' then '+' else if c = '_' then '/' else c

/-- `.replace(/=+$/, '')`. -/
def removeTrailingEq (cs : List Char) : List Char :=
  (cs.reverse.dropWhile (fun c => c = '=')).reverse

/-- `b64u(buf)`: `btoa`, then `+` to `-`, `/` to `_`, strip trailing
`=`. -/
def b64u (bs : List Nat) : String :=
  ⟨removeTrailingEq ((btoa bs).map toUrlSafe)⟩

/-- Up to two trailing `=` removed when the length is a whole number of
groups (WHATWG forgiving-base64, step 2). -/
def stripPad (cs : List Char) : List Char :=
  if cs.length % 4 ≠ 0 then cs
  else
    match cs.reverse with
    | [] => cs
    | [c1] => if c1 = '=' then [] else cs
    | c1 :: c2 :: t =>
      if c1 = '=' then
        (if c2 = '=' then t.reverse else (c2 :: t).reverse)
      else cs

/-- 4 sextets to 3 bytes, with the standard 2- and 3-sextet tails. -/
def atobCore : List Nat → Option (List Nat)
  | [] => some []
  | [_] => none
  | [s0, s1] => some [s0 * 4 + s1 / 16]
  | [s0, s1, s2] => some [s0 * 4 + s1 / 16, s1 % 16 * 16 + s2 / 4]
  | s0 :: s1 :: s2 :: s3 :: rest =>
    match atobCore rest with
    | some bs =>
      some ((s0 * 4 + s1 / 16) :: (s1 % 16 * 16 + s2 / 4) ::
        (s2 % 4 * 64 + s3) :: bs)
    | none => none

/-- Alphabet lookup of every character, failing on the first character
outside the alphabet. -/
def decodeAlphabet : List Char → Option (List Nat)
  | [] => some []
  | c :: rest =>
    match b64CharVal c, decodeAlphabet rest with
    | some v, some vs => some (v :: vs)
    | _, _ => none

/-- `atob` (forgiving-base64 without the whitespace stripping, which
never occurs in this protocol): strip padding, reject a leftover length
of 1 mod 4, decode through the alphabet; `none` models the thrown
`InvalidCharacterError`. -/
def atob (cs : List Char) : Option (List Nat) :=
  let body := stripPad cs
  if body.length % 4 = 1 then none
  else
    match decodeAlphabet body with
    | some vs => atobCore vs
    | none => none

/-- `ub64(s)`: re-pad to a multiple of 4, `-` to `+`, `_` to `/`,
`atob`. -/
def ub64 (s : String) : Option (List Nat) :=
  let pad := if s.length % 4 = 0 then []
    else List.replicate (4 - s.length % 4) '='
  atob (s.data.map fromUrlSafe ++ pad)

/-- `encJ(o) = b64u(te.encode(JSON.stringify(o)))`. -/
def encJ (o : Json) : String := b64u (utf8Encode (stringifyJ o))

/-- `decJ(s) = JSON.parse(td.decode(ub64(s)))`; `none` models a thrown
decoding error. -/
def decJ (s : String) : Option Json :=
  match ub64 s with
  | some bytes => jsonParse ⟨utf8DecodeChars bytes⟩
  | none => none

/-! ### `URLSearchParams` and `parseReturnHash` -/

/-- Percent-decoding to bytes (application/x-www-form-urlencoded):
`+` is a space, `%xx` a byte, anything else contributes its UTF-8
bytes; an incomplete `%` sequence is kept literally. -/
def percentDecodeBytes : List Char → List Nat
  | [] => []
  | '%' :: h1 :: h2 :: rest =>
    match parseHex h1, parseHex h2 with
    | some a, some b => (a * 16 + b) :: percentDecodeBytes rest
    | _, _ => utf8EncodeChar '%' ++ percentDecodeBytes (h1 :: h2 :: rest)
  | '+' :: rest => 32 :: percentDecodeBytes rest
  | c :: rest => utf8EncodeChar c ++ percentDecodeBytes rest

def formDecode (cs : List Char) : String :=
  ⟨utf8DecodeChars (percentDecodeBytes cs)⟩

/-- Split a query segment at its first `=` (no `=`: empty value). -/
def splitFirstEq : List Char → List Char × List Char
  | [] => ([], [])
  | '=' :: rest => ([], rest)
  | c :: rest =>
    let p := splitFirstEq rest
    (c :: p.1, p.2)

/-- `new URLSearchParams(s)`: split on `&`, skip empty segments, split
each at the first `=`, percent-decode keys and values. -/
def parseQS (s : String) : List (String × String) :=
  ((s.data.splitOn '&').filter (fun seg => seg ≠ [])).map
    (fun seg => (formDecode (splitFirstEq seg).1, formDecode (splitFirstEq seg).2))

/-- `p.get(k)`: the first value for the key, or null. -/
def qsGet (ps : List (String × String)) (k : String) : Option String :=
  (ps.find? (fun p => p.1 = k)).map (fun p => p.2)

/-- JavaScript truthiness of a string-or-null. -/
def truthyStr : Option String → Bool
  | some s => s != ""
  | none => false

/-- The decoded return envelope: `ParsedReturnSuccess` /
`ParsedReturnError` of the source.  The parsed `vp_token` and
`smart_artifacts` are whatever JSON `JSON.parse` produced (the source
performs no further validation of their shape). -/
inductive ParsedReturn where
  | success (state : String) (vp_token : Json) (smart_artifacts : Json) :
      ParsedReturn
  | err (state : String) (error : String) (error_description : Option String) :
      ParsedReturn

/-- `hash.startsWith('#')`, computed over the character list. -/
def startsWithHash (s : String) : Bool :=
  match s.data with
  | '#' :: _ => true
  | _ => false

/-- `parseReturnHash(hash)`.  `Except.error ()` models an exception
escaping the function (`JSON.parse` throwing on malformed
`vp_token` / `smart_artifacts`); `Except.ok none` is its `null`
return. -/
def parseReturnHash (hash : String) : Except Unit (Option ParsedReturn) :=
  if hash = "" ∨ hash = "#" then .ok none
  else
    let h := if startsWithHash hash then hash.drop 1 else hash
    let p := parseQS h
    match qsGet p "state" with
    | none => .ok none
    | some st =>
      if st = "" then .ok none
      else
        let e := qsGet p "error"
        if truthyStr e then
          .ok (some (.err st (e.getD "")
            (match qsGet p "error_description" with
             | some d => if d = "" then none else some d
             | none => none)))
        else
          let vt := qsGet p "vp_token"
          let sa := qsGet p "smart_artifacts"
          if truthyStr vt && truthyStr sa then
            match jsonParse (vt.getD ""), jsonParse (sa.getD "") with
            | some vj, some sj => .ok (some (.success st vj sj))
            | _, _ => .error ()
          else .ok none

/-- The `state` parameter a hash would yield in `parseReturnHash`. -/
def hashStateParam (hash : String) : Option String :=
  if hash = "" ∨ hash = "#" then none
  else
    qsGet (parseQS (if startsWithHash hash then hash.drop 1 else hash)) "state"

/-- C3: rehydration maps each credential id to the ordered list of the
referenced artifacts' data values; the concrete instance of the claim:
`vp_token = {a : [0,1], b : [0], c : []}` with artifacts
`[{type : fhir_resource, data : X}, {type : shl, data : Y}]` rehydrates
to `credentials = {a : [X, Y], b : [X], c : []}` (an id with an empty
presentation list maps to an empty list). -/
theorem rehydrate_correct (st : String) (X Y : Json) :
    rehydrateResponse
      { state := st
        vp_token := [("a", [⟨0⟩, ⟨1⟩]), ("b", [⟨0⟩]), ("c", [])]
        smart_artifacts :=
          [Json.obj [("type", Json.str "fhir_resource"), ("data", X)],
           Json.obj [("type", Json.str "shl"), ("data", Y)]] }
    = { state := st
        vp_token := [("a", [⟨0⟩, ⟨1⟩]), ("b", [⟨0⟩]), ("c", [])]
        smart_artifacts :=
          [Json.obj [("type", Json.str "fhir_resource"), ("data", X)],
           Json.obj [("type", Json.str "shl"), ("data", Y)]]
        credentials := [("a", [.val X, .val Y]), ("b", [.val X]), ("c", [])] } := by
  rfl

/-- C9: rehydration is total on out-of-range artifact references — a
presentation whose index is negative or past the end of
`smart_artifacts` contributes `undefined` to the credentials list, and
the id's entry is still produced (indexing never aborts rehydration). -/
theorem rehydrate_out_of_range (r : RawResponse) (id : String)
    (ps : List Presentation) (p : Presentation)
    (hmem : (id, ps) ∈ r.vp_token) (_hp : p ∈ ps)
    (hoob : p.artifact < 0 ∨ r.smart_artifacts.length ≤ p.artifact.toNat) :
    resolveArtifact r.smart_artifacts p = .undefined ∧
      (id, ps.map (resolveArtifact r.smart_artifacts)) ∈
        (rehydrateResponse r).credentials := by
  constructor
  · unfold resolveArtifact arrIndex
    have : ¬(0 ≤ p.artifact ∧ p.artifact.toNat < r.smart_artifacts.length) := by
      rcases hoob with h | h
      · intro hc; omega
      · intro hc; omega
    simp [this]
  · unfold rehydrateResponse
    simp only [List.mem_map]
    exact ⟨(id, ps), hmem, rfl⟩

/-- C9 witness: a concrete response whose only presentation references
artifact index 5 while only one artifact exists. -/
theorem rehydrate_out_of_range_witness :
    resolveArtifact [Json.null] ⟨5⟩ = .undefined ∧
      ("a", List.map (resolveArtifact [Json.null]) [⟨5⟩]) ∈
        (rehydrateResponse
          { state := "s", vp_token := [("a", [⟨5⟩])],
            smart_artifacts := [Json.null] }).credentials :=
  rehydrate_out_of_range
    { state := "s", vp_token := [("a", [⟨5⟩])], smart_artifacts := [Json.null] }
    "a" [⟨5⟩] ⟨5⟩ (List.mem_singleton.mpr rfl) (List.mem_singleton.mpr rfl)
    (Or.inr (by decide))

/-- C10: rehydration is frame-preserving — the returned object's
`state`, `vp_token` and `smart_artifacts` are exactly those of the
input (the spread `{...response, credentials}` copies them; the only
added field is `credentials`). -/
theorem rehydrate_frame (r : RawResponse) :
    (rehydrateResponse r).state = r.state ∧
    (rehydrateResponse r).vp_token = r.vp_token ∧
    (rehydrateResponse r).smart_artifacts = r.smart_artifacts := by
  exact ⟨rfl, rfl, rfl⟩

theorem deliver_closed (expected : String) (rehy : Bool) (st : ExchState)
    (d : Option RelayMsg) (h : st.chanOpen = false) :
    deliver expected rehy st d = st := by
  simp [deliver, h]

theorem deliver_nondecisive (expected : String) (rehy : Bool) (st : ExchState)
    (d : Option RelayMsg) (h : decisive expected d = false) :
    deliver expected rehy st d = st := by
  cases d with
  | none => simp [deliver]
  | some m =>
    by_cases hs : stateMatches m expected
    · simp only [decisive, hs, Bool.true_and, Bool.or_eq_false_iff,
        Bool.and_eq_false_iff] at h
      obtain ⟨herr, hok⟩ := h
      rcases hok with hok | hok
      · simp [deliver, hs, herr, hok]
      · simp [deliver, hs, herr, hok]
    · simp [deliver, hs]

theorem deliver_decisive_closes (expected : String) (rehy : Bool)
    (st : ExchState) (d : Option RelayMsg) (hopen : st.chanOpen = true)
    (h : decisive expected d = true) :
    (deliver expected rehy st d).chanOpen = false := by
  cases d with
  | none => exact Bool.noConfusion h
  | some m =>
    simp only [decisive, Bool.and_eq_true, Bool.or_eq_true] at h
    obtain ⟨hs, hrest⟩ := h
    by_cases herr : jsTruthy m.error
    · simp [deliver, hopen, hs, herr, cleanupEx]
    · have hok : (jsTruthy m.vp_token && jsTruthy m.smart_artifacts) = true := by
        rcases hrest with h | h
        · exact absurd h herr
        · simp [h.1, h.2]
      simp [deliver, hopen, hs, herr, hok, cleanupEx]

theorem processMsgs_closed (expected : String) (rehy : Bool) (st : ExchState)
    (msgs : List (Option RelayMsg)) (h : st.chanOpen = false) :
    processMsgs expected rehy st msgs = st := by
  induction msgs with
  | nil => rfl
  | cons m rest ih =>
    simp only [processMsgs, List.foldl_cons] at *
    rw [deliver_closed _ _ _ _ h, ih]

theorem processMsgs_eq_find (expected : String) (rehy : Bool) (st : ExchState)
    (msgs : List (Option RelayMsg)) (hopen : st.chanOpen = true) :
    processMsgs expected rehy st msgs
      = match msgs.find? (decisive expected) with
        | none => st
        | some m => deliver expected rehy st m := by
  induction msgs generalizing st with
  | nil => rfl
  | cons m rest ih =>
    by_cases hd : decisive expected m
    · rw [List.find?_cons_of_pos _ (by exact_mod_cast hd)]
      show processMsgs expected rehy (deliver expected rehy st m) rest
        = deliver expected rehy st m
      exact processMsgs_closed _ _ _ _
        (deliver_decisive_closes _ _ _ _ hopen (by exact_mod_cast hd))
    · have hd' : decisive expected m = false := by simpa using hd
      rw [List.find?_cons_of_neg _ hd]
      show processMsgs expected rehy (deliver expected rehy st m) rest
        = match rest.find? (decisive expected) with
          | none => st
          | some m => deliver expected rehy st m
      rw [deliver_nondecisive _ _ _ _ hd']
      exact ih st hopen

/-- C1: for a pending exchange, only the first relay message whose
state matches and whose content is well-formed (a truthy error, or a
success carrying truthy `vp_token` and `smart_artifacts`) determines
the outcome: processing any message sequence from the freshly opened
exchange equals processing just the first decisive message (none
settles nothing), and once the channel is closed by a settlement every
later delivery is a no-op. -/
theorem first_decisive_message_wins (expected : String) (rehy : Bool)
    (opts : RequestOptions) (msgs : List (Option RelayMsg)) :
    (processMsgs expected rehy (initExchange opts) msgs
      = match msgs.find? (decisive expected) with
        | none => initExchange opts
        | some m => deliver expected rehy (initExchange opts) m)
    ∧ ∀ (st : ExchState) (d : Option RelayMsg), st.chanOpen = false →
        deliver expected rehy st d = st := by
  exact ⟨processMsgs_eq_find expected rehy (initExchange opts) msgs rfl,
    fun st d h => deliver_closed expected rehy st d h⟩

/-- C2: a relay message whose `state` field is not the expected string
(including a missing state), or a falsy message, leaves the pending
exchange completely unchanged: no resolution, no rejection, timer and
channel untouched. -/
theorem state_mismatch_is_noop (expected : String) (rehy : Bool)
    (st : ExchState) (msg : RelayMsg)
    (h : stateMatches msg expected = false) :
    deliver expected rehy st (some msg) = st ∧
      deliver expected rehy st none = st := by
  refine ⟨?_, by simp [deliver]⟩
  by_cases hc : st.chanOpen
  · simp [deliver, hc, h]
  · exact deliver_closed _ _ _ _ (by simpa using hc)

/-- C2 witness: a concrete pending exchange ignores a success-shaped
message whose state field is absent. -/
theorem state_mismatch_is_noop_witness :
    deliver "expected-state" true
        (initExchange { checkinBase := "https://checkin.example",
                        rehydrate := none, timeout := none })
        (some { state := .undefined, error := .undefined, error_description := .undefined,
                vp_token := .val (.obj []), smart_artifacts := .val (.arr []) })
      = initExchange { checkinBase := "https://checkin.example",
                       rehydrate := none, timeout := none } ∧
    deliver "expected-state" true
        (initExchange { checkinBase := "https://checkin.example",
                        rehydrate := none, timeout := none }) none
      = initExchange { checkinBase := "https://checkin.example",
                       rehydrate := none, timeout := none } :=
  state_mismatch_is_noop "expected-state" true
    (initExchange { checkinBase := "https://checkin.example",
                    rehydrate := none, timeout := none })
    { state := .undefined, error := .undefined, error_description := .undefined,
      vp_token := .val (.obj []), smart_artifacts := .val (.arr []) }
    rfl

/-- C6: when no decisive message arrives, the exchange times out: the
outcome is the distinct timeout rejection, the timer is spent and the
relay channel is released by the firing callback; the armed delay is
`opts.timeout` when supplied and 120000 ms (2 minutes) otherwise. -/
theorem timeout_fires_and_cleans_up (expected : String) (rehy : Bool)
    (opts : RequestOptions) (msgs : List (Option RelayMsg))
    (h : ∀ m ∈ msgs, decisive expected m = false) :
    (runExchange expected rehy opts msgs).outcome = .timedOut ∧
    (runExchange expected rehy opts msgs).chanOpen = false ∧
    (runExchange expected rehy opts msgs).timerActive = false ∧
    (initExchange opts).timerDelay = effectiveTimeout opts ∧
    effectiveTimeout opts = opts.timeout.getD 120000 := by
  have hfind : msgs.find? (decisive expected) = none :=
    List.find?_eq_none.mpr (fun m hm => by simp [h m hm])
  have hproc : processMsgs expected rehy (initExchange opts) msgs
      = initExchange opts := by
    rw [processMsgs_eq_find expected rehy (initExchange opts) msgs rfl, hfind]
  have hrun : runExchange expected rehy opts msgs
      = { outcome := .timedOut, timerActive := false, chanOpen := false,
          popupOpen := false, timerDelay := effectiveTimeout opts } := by
    unfold runExchange
    rw [hproc]
    rfl
  exact ⟨by rw [hrun], by rw [hrun], by rw [hrun], rfl, rfl⟩

/-- C6 witness: with `timeout := some 5000` and only a stray
mismatched message on the channel, the exchange times out with the
channel released. -/
theorem timeout_fires_and_cleans_up_witness :
    (runExchange "s" true
        { checkinBase := "https://c", rehydrate := none, timeout := some 5000 }
        [some { state := .val (.str "other"), error := .undefined,
                error_description := .undefined, vp_token := .val (.obj []),
                smart_artifacts := .val (.arr []) }, none]).outcome
      = .timedOut ∧
    (runExchange "s" true
        { checkinBase := "https://c", rehydrate := none, timeout := some 5000 }
        [some { state := .val (.str "other"), error := .undefined,
                error_description := .undefined, vp_token := .val (.obj []),
                smart_artifacts := .val (.arr []) }, none]).chanOpen = false ∧
    (runExchange "s" true
        { checkinBase := "https://c", rehydrate := none, timeout := some 5000 }
        [some { state := .val (.str "other"), error := .undefined,
                error_description := .undefined, vp_token := .val (.obj []),
                smart_artifacts := .val (.arr []) }, none]).timerActive = false ∧
    (initExchange { checkinBase := "https://c", rehydrate := none,
                    timeout := some 5000 }).timerDelay
      = effectiveTimeout { checkinBase := "https://c", rehydrate := none,
                           timeout := some 5000 } ∧
    effectiveTimeout { checkinBase := "https://c", rehydrate := none,
                       timeout := some 5000 }
      = (some 5000).getD 120000 :=
  timeout_fires_and_cleans_up "s" true
    { checkinBase := "https://c", rehydrate := none, timeout := some 5000 }
    [some { state := .val (.str "other"), error := .undefined,
            error_description := .undefined, vp_token := .val (.obj []),
            smart_artifacts := .val (.arr []) }, none]
    (by decide)

/-- C4: when `window.open` returns no handle, `request` closes the
relay channel and rejects synchronously with the popup-blocked error —
the result is a synchronous throw, for every message sequence and every
configured timeout (so it does not wait for the timer). -/
theorem popup_blocked_fails_fast (dq : DCQLQuery) (opts : RequestOptions)
    (stateTok : String) (msgs : List (Option RelayMsg))
    (h : stripTrailingSlashes opts.checkinBase ≠ "") :
    runRequest (some dq) opts stateTok false msgs
      = .thrownR "Popup blocked - please allow popups for this site"
          { stateGenerated := true, chanCreated := true, chanOpen := false,
            popupAttempted := true } := by
  simp [runRequest, h]

/-- C4 witness: concrete blocked-popup call. -/
theorem popup_blocked_fails_fast_witness :
    runRequest (some { credentials := [{ id := "coverage-1" }] })
        { checkinBase := "https://checkin.example", rehydrate := none,
          timeout := some 120000 }
        "st" false []
      = .thrownR "Popup blocked - please allow popups for this site"
          { stateGenerated := true, chanCreated := true, chanOpen := false,
            popupAttempted := true } :=
  popup_blocked_fails_fast { credentials := [{ id := "coverage-1" }] }
    { checkinBase := "https://checkin.example", rehydrate := none,
      timeout := some 120000 }
    "st" [] (by decide)

/-- C5 counterexample: an empty query (no credential items), which the
claim says must fail immediately with `InvalidQuery`, is accepted by
the code: `request` proceeds past validation, generates state, opens
the channel and popup, and the exchange runs to its timeout instead of
throwing. -/
theorem empty_query_not_rejected :
    runRequest (some { credentials := [] })
        { checkinBase := "https://checkin.example", rehydrate := none,
          timeout := none }
        "st" true []
      = .asyncR { outcome := .timedOut, timerActive := false,
                  chanOpen := false, popupOpen := false,
                  timerDelay := 120000 } := by
  rfl

/-- C5 (amended): `request` validates only that `checkinBase` is
non-empty after stripping trailing slashes and that the query is an
object with a credentials array; each violation fails immediately,
before any side effect (no state generated, no channel, no popup).  It
does not reject empty queries or duplicate credential ids. -/
theorem request_shape_validation (q : Option DCQLQuery)
    (optsGood optsBad : RequestOptions) (stateTok : String)
    (popupOpens : Bool) (msgs : List (Option RelayMsg))
    (hgood : stripTrailingSlashes optsGood.checkinBase ≠ "")
    (hbad : stripTrailingSlashes optsBad.checkinBase = "") :
    runRequest none optsGood stateTok popupOpens msgs
      = .thrownR "dcqlQuery must be an object with a credentials array"
          { stateGenerated := false, chanCreated := false, chanOpen := false,
            popupAttempted := false } ∧
    runRequest q optsBad stateTok popupOpens msgs
      = .thrownR "checkinBase required"
          { stateGenerated := false, chanCreated := false, chanOpen := false,
            popupAttempted := false } := by
  constructor
  · simp [runRequest, hgood]
  · simp [runRequest, hbad]

/-- C5 amended witness: a null query fails with the query-shape error
and an all-slash `checkinBase` fails with the configuration error, both
with no side effects. -/
theorem request_shape_validation_witness :
    runRequest none
        { checkinBase := "https://checkin.example", rehydrate := none,
          timeout := none } "st" true []
      = .thrownR "dcqlQuery must be an object with a credentials array"
          { stateGenerated := false, chanCreated := false, chanOpen := false,
            popupAttempted := false } ∧
    runRequest (some { credentials := [] })
        { checkinBase := "///", rehydrate := none, timeout := none }
        "st" true []
      = .thrownR "checkinBase required"
          { stateGenerated := false, chanCreated := false, chanOpen := false,
            popupAttempted := false } :=
  request_shape_validation (some { credentials := [] })
    { checkinBase := "https://checkin.example", rehydrate := none,
      timeout := none }
    { checkinBase := "///", rehydrate := none, timeout := none }
    "st" true [] (by decide) (by decide)

theorem toNat_ofNat_valid {n : Nat} (h : n.isValidChar) :
    (Char.ofNat n).toNat = n := by
  rw [Char.ofNat, dif_pos h]
  rfl

theorem skipWs_cons_of_not_ws {c : Char} (h : isJsonWs c = false)
    (cs : List Char) : skipWs (c :: cs) = c :: cs := by
  simp [skipWs, h]

theorem digitChar_isDigit {d : Nat} (h : d < 10) :
    (digitChar d).isDigit = true := by
  interval_cases d <;> decide

theorem toNat_digitChar {d : Nat} (h : d < 10) :
    (digitChar d).toNat = 48 + d := by
  interval_cases d <;> decide

theorem foldl_digits (L : List Nat) (acc : Nat) :
    L.foldl (fun a d => a * 10 + d) acc
      = acc * 10 ^ L.length + Nat.ofDigits 10 L.reverse := by
  induction L generalizing acc with
  | nil => simp
  | cons d L ih =>
    simp only [List.foldl_cons, List.reverse_cons, List.length_cons, ih,
      Nat.ofDigits_append, Nat.ofDigits_singleton, List.length_reverse]
    ring

theorem digitsToNat_eq (L : List Nat) :
    digitsToNat L = Nat.ofDigits 10 L.reverse := by
  simp [digitsToNat, foldl_digits]

theorem printNat_spec (n : Nat) :
    ∃ ds : List Nat, printNat n = ds.map digitChar ∧ ds ≠ [] ∧
      (∀ d ∈ ds, d < 10) ∧ digitsToNat ds = n := by
  by_cases h : n = 0
  · exact ⟨[0], by simp [printNat, h, digitChar], by simp, by simp,
      by simp [digitsToNat, h]⟩
  · refine ⟨(Nat.digits 10 n).reverse, by simp [printNat, h], ?_, ?_, ?_⟩
    · simp [Nat.digits_ne_nil_iff_ne_zero, h]
    · intro d hd
      exact Nat.digits_lt_base (by norm_num) (List.mem_reverse.mp hd)
    · rw [digitsToNat_eq, List.reverse_reverse, Nat.ofDigits_digits]

theorem takeDigits_eval (ds : List Nat) (h : ∀ d ∈ ds, d < 10)
    (rest : List Char) (hrest : noDigitHead rest) :
    takeDigits (ds.map digitChar ++ rest) = (ds, rest) := by
  induction ds with
  | nil =>
    cases rest with
    | nil => rfl
    | cons c cs =>
      simp only [noDigitHead] at hrest
      simp [takeDigits, hrest]
  | cons d ds ih =>
    have hd : d < 10 := h d (by simp)
    have hrec := ih (fun x hx => h x (by simp [hx]))
    have hdv : 48 + d - 48 = d := by omega
    simp only [List.map_cons, List.cons_append, takeDigits,
      digitChar_isDigit hd, if_pos, toNat_digitChar hd, List.append_eq,
      hrec, hdv]

theorem parseHex_hexDigitChar {x : Nat} (h : x < 16) :
    parseHex (hexDigitChar x) = some x := by
  interval_cases x <;> decide

theorem parseStringBody_escape (cs : List Char) (rest : List Char) :
    parseStringBody (cs.flatMap escapeChar ++ '"' :: rest) = some (cs, rest) := by
  induction cs with
  | nil => simp [parseStringBody]
  | cons c cs ih =>
    show parseStringBody ((escapeChar c ++ cs.flatMap escapeChar) ++ '"' :: rest)
      = some (c :: cs, rest)
    rw [List.append_assoc]
    by_cases h1 : c = '"'
    · subst h1; simp [escapeChar, parseStringBody, parseEscape, unescape1, ih]
    by_cases h2 : c = '\\'
    · subst h2; simp [escapeChar, parseStringBody, parseEscape, unescape1, ih]
    by_cases h3 : c = Char.ofNat 8
    · subst h3; simp [escapeChar, parseStringBody, parseEscape, unescape1, ih]
    by_cases h4 : c = Char.ofNat 9
    · subst h4; simp [escapeChar, parseStringBody, parseEscape, unescape1, ih]
    by_cases h5 : c = Char.ofNat 10
    · subst h5; simp [escapeChar, parseStringBody, parseEscape, unescape1, ih]
    by_cases h6 : c = Char.ofNat 12
    · subst h6; simp [escapeChar, parseStringBody, parseEscape, unescape1, ih]
    by_cases h7 : c = Char.ofNat 13
    · subst h7; simp [escapeChar, parseStringBody, parseEscape, unescape1, ih]
    by_cases h8 : c.toNat < 32
    · have hesc : escapeChar c
          = ['\\', 'u', '0', '0', hexDigitChar (c.toNat / 16),
             hexDigitChar (c.toNat % 16)] := by
        simp [escapeChar, h1, h2, h3, h4, h5, h6, h7, h8]
      have h16a : c.toNat / 16 < 16 := by omega
      have h16b : c.toNat % 16 < 16 := by omega
      have hv : ((0 * 16 + 0) * 16 + c.toNat / 16) * 16 + c.toNat % 16
          = c.toNat := by omega
      have hlt : c.toNat < 55296 := by omega
      have hv2 : c.toNat / 16 * 16 + c.toNat % 16 = c.toNat := by omega
      have h0 : parseHex '0' = some 0 := by decide
      rw [hesc]
      simp [parseStringBody, parseEscape, List.cons_append,
        parseHex_hexDigitChar h16a, parseHex_hexDigitChar h16b, h0, hv, hv2,
        hlt, ih]
    · have hesc : escapeChar c = [c] := by
        simp [escapeChar, h1, h2, h3, h4, h5, h6, h7, h8]
      rw [hesc]
      simp [parseStringBody, h1, h2, h8, ih]

theorem digitChar_facts {d : Nat} (h : d < 10) :
    isJsonWs (digitChar d) = false ∧ digitChar d ≠ ']' ∧
      digitChar d ≠ rbraceChar := by
  interval_cases d <;> decide

theorem isDigit_not_special {c : Char} (h : c.isDigit = true) :
    c ≠ 'n' ∧ c ≠ 't' ∧ c ≠ 'f' ∧ c ≠ '"' ∧ c ≠ '[' ∧ c ≠ lbraceChar ∧
      c ≠ '-' := by
  refine ⟨?_, ?_, ?_, ?_, ?_, ?_, ?_⟩ <;> (rintro rfl; revert h; decide)

theorem printJ_cons (j : Json) :
    ∃ c cs, printJ j = c :: cs ∧ isJsonWs c = false ∧ c ≠ ']' ∧
      c ≠ rbraceChar := by
  cases j with
  | num i =>
    by_cases hneg : i < 0
    · refine ⟨'-', printNat i.natAbs, ?_, by decide⟩
      simp [printJ, printInt, hneg]
    · obtain ⟨ds, hds, hne, hlt, -⟩ := printNat_spec i.toNat
      cases ds with
      | nil => exact absurd rfl hne
      | cons d ds' =>
        refine ⟨digitChar d, ds'.map digitChar, ?_,
          digitChar_facts (hlt d (by simp))⟩
        simp [printJ, printInt, hneg, hds]
  | str s =>
    refine ⟨'"', s.data.flatMap escapeChar ++ ['"'], ?_, by decide⟩
    simp [printJ, printStr]
  | arr es =>
    refine ⟨'[', printElems es ++ [']'], ?_, by decide⟩
    simp [printJ]
  | obj fs =>
    refine ⟨lbraceChar, printFields fs ++ [rbraceChar], ?_, by decide⟩
    simp [printJ]
  | null => exact ⟨'n', _, rfl, by decide⟩
  | bool b => cases b
              · exact ⟨'f', _, rfl, by decide⟩
              · exact ⟨'t', _, rfl, by decide⟩

theorem skipWs_printJ (j : Json) (rest : List Char) :
    skipWs (printJ j ++ rest) = printJ j ++ rest := by
  obtain ⟨c, cs, heq, hws, -, -⟩ := printJ_cons j
  rw [heq, List.cons_append, skipWs_cons_of_not_ws hws]

theorem printElems_cons_head (e : Json) (es : List Json) :
    ∃ t, printElems (e :: es) = printJ e ++ t := by
  cases es with
  | nil => exact ⟨[], by simp [printElems]⟩
  | cons e2 es2 => exact ⟨',' :: printElems (e2 :: es2), by simp [printElems]⟩

theorem parse_print (fuel : Nat) :
    (∀ j rest, jsize j ≤ fuel → noDigitHead rest →
      parseVal fuel (printJ j ++ rest) = some (j, rest)) ∧
    (∀ es rest, jsizeList es ≤ fuel → es ≠ [] →
      parseElems fuel (printElems es ++ ']' :: rest) = some (es, rest)) ∧
    (∀ fs rest, jsizeFields fs ≤ fuel → fs ≠ [] →
      parseFields fuel (printFields fs ++ rbraceChar :: rest)
        = some (fs, rest)) := by
  induction fuel with
  | zero =>
    refine ⟨?_, ?_, ?_⟩
    · intro j rest hsz _
      cases j <;> simp [jsize] at hsz
    · intro es rest hsz hne
      cases es with
      | nil => exact absurd rfl hne
      | cons e es' => simp [jsizeList] at hsz
    · intro fs rest hsz hne
      cases fs with
      | nil => exact absurd rfl hne
      | cons f fs' => obtain ⟨k, v⟩ := f; simp [jsizeFields] at hsz
  | succ fuel ih =>
    obtain ⟨ihP, ihQ, ihR⟩ := ih
    refine ⟨?_, ?_, ?_⟩
    · intro j rest hsz hrest
      cases j with
      | null => simp [printJ, parseVal, expectChars]
      | bool b => cases b <;> simp [printJ, parseVal, expectChars]
      | num i =>
        by_cases hneg : i < 0
        · obtain ⟨ds, hds, hne, hlt, hval⟩ := printNat_spec i.natAbs
          have hprint : printJ (.num i) = '-' :: ds.map digitChar := by
            simp [printJ, printInt, hneg, hds]
          rw [hprint]
          have htd := takeDigits_eval ds hlt rest hrest
          cases ds with
          | nil => exact absurd rfl hne
          | cons d ds' =>
            have hid : -((digitsToNat (d :: ds') : Nat) : Int) = i := by
              rw [hval]; omega
            have hlb : ¬('-' = lbraceChar) := by decide
            simp only [List.map_cons, List.cons_append] at htd ⊢
            simp [parseVal, hlb, htd, hid]
        · obtain ⟨ds, hds, hne, hlt, hval⟩ := printNat_spec i.toNat
          have hprint : printJ (.num i) = ds.map digitChar := by
            simp [printJ, printInt, hneg, hds]
          rw [hprint]
          cases ds with
          | nil => exact absurd rfl hne
          | cons d ds' =>
            have hd : d < 10 := hlt d (by simp)
            have hdig := digitChar_isDigit hd
            obtain ⟨n1, n2, n3, n4, n5, n6, n7⟩ := isDigit_not_special hdig
            have htd := takeDigits_eval (d :: ds') hlt rest hrest
            have hid : ((digitsToNat (d :: ds') : Nat) : Int) = i := by
              rw [hval]; omega
            simp only [List.map_cons, List.cons_append] at htd ⊢
            simp [parseVal, n1, n2, n3, n4, n5, n6, n7, hdig, htd, hid]
      | str s =>
        have hps := parseStringBody_escape s.data rest
        have hprint : printJ (.str s) ++ rest
            = '"' :: (s.data.flatMap escapeChar ++ '"' :: rest) := by
          simp [printJ, printStr]
        rw [hprint]
        simp [parseVal, hps]
      | arr es =>
        cases es with
        | nil =>
          have hprint : printJ (.arr []) ++ rest = '[' :: ']' :: rest := by
            simp [printJ, printElems]
          rw [hprint]
          have h1 : isJsonWs ']' = false := by decide
          simp [parseVal, skipWs_cons_of_not_ws h1]
        | cons e es' =>
          have hsz' : jsizeList (e :: es') ≤ fuel := by
            simp [jsize] at hsz; omega
          have hq := ihQ (e :: es') rest hsz' (by simp)
          obtain ⟨t, ht⟩ := printElems_cons_head e es'
          obtain ⟨c, cs, hc, hws, hcb, -⟩ := printJ_cons e
          have hshape : printElems (e :: es') ++ ']' :: rest
              = c :: (cs ++ (t ++ ']' :: rest)) := by
            rw [ht, hc]; simp
          have hprint : printJ (.arr (e :: es')) ++ rest
              = '[' :: (printElems (e :: es') ++ ']' :: rest) := by
            simp [printJ]
          rw [hprint]
          simp only [parseVal]
          rw [hshape, skipWs_cons_of_not_ws hws]
          simp [hcb, ← hshape, hq]
      | obj fs =>
        cases fs with
        | nil =>
          have hprint : printJ (.obj []) ++ rest
              = lbraceChar :: rbraceChar :: rest := by
            simp [printJ, printFields]
          rw [hprint]
          have hnws : isJsonWs rbraceChar = false := by decide
          have hn1 : ¬(lbraceChar = 'n') := by decide
          have hn2 : ¬(lbraceChar = 't') := by decide
          have hn3 : ¬(lbraceChar = 'f') := by decide
          have hn4 : ¬(lbraceChar = '"') := by decide
          have hn5 : ¬(lbraceChar = '[') := by decide
          simp [parseVal, skipWs_cons_of_not_ws hnws, hn1, hn2, hn3, hn4, hn5]
        | cons f fs' =>
          obtain ⟨k, v⟩ := f
          have hsz' : jsizeFields ((k, v) :: fs') ≤ fuel := by
            simp [jsize] at hsz; omega
          have hr := ihR ((k, v) :: fs') rest hsz' (by simp)
          have hshape : ∃ t, printFields ((k, v) :: fs') ++ rbraceChar :: rest
              = '"' :: (k.data.flatMap escapeChar ++ '"' :: t) := by
            cases fs' with
            | nil =>
              exact ⟨':' :: printJ v ++ rbraceChar :: rest,
                by simp [printFields, printStr]⟩
            | cons f2 fs'' =>
              exact ⟨':' :: printJ v ++ ',' :: printFields (f2 :: fs'')
                  ++ rbraceChar :: rest,
                by simp [printFields, printStr]⟩
          obtain ⟨t, ht⟩ := hshape
          have hprint : printJ (.obj ((k, v) :: fs')) ++ rest
              = lbraceChar :: (printFields ((k, v) :: fs') ++ rbraceChar :: rest) := by
            simp [printJ]
          rw [hprint]
          have hn1 : ¬(lbraceChar = 'n') := by decide
          have hn2 : ¬(lbraceChar = 't') := by decide
          have hn3 : ¬(lbraceChar = 'f') := by decide
          have hn4 : ¬(lbraceChar = '"') := by decide
          have hn5 : ¬(lbraceChar = '[') := by decide
          have hn6 : ¬('"' = rbraceChar) := by decide
          simp only [parseVal, if_neg hn1, if_neg hn2, if_neg hn3, if_neg hn4,
            if_neg hn5, if_pos rfl]
          rw [ht, skipWs_cons_of_not_ws (by decide)]
          simp [← ht, hn6, hr]
    · intro es rest hsz hne
      cases es with
      | nil => exact absurd rfl hne
      | cons e es' =>
        have hszE : jsize e ≤ fuel := by simp [jsizeList] at hsz; omega
        cases es' with
        | nil =>
          have hp := ihP e (']' :: rest) hszE (by simp only [noDigitHead]; decide)
          have hprint : printElems [e] ++ ']' :: rest = printJ e ++ ']' :: rest := by
            simp [printElems]
          rw [hprint]
          simp only [parseElems, skipWs_printJ, hp]
          rw [skipWs_cons_of_not_ws (by decide)]
          simp
        | cons e2 es'' =>
          have hszL : jsizeList (e2 :: es'') ≤ fuel := by
            simp [jsizeList] at hsz ⊢; omega
          have hq := ihQ (e2 :: es'') rest hszL (by simp)
          have hp := ihP e (',' :: (printElems (e2 :: es'') ++ ']' :: rest))
            hszE (by simp only [noDigitHead]; decide)
          have hprint : printElems (e :: e2 :: es'') ++ ']' :: rest
              = printJ e ++ (',' :: (printElems (e2 :: es'') ++ ']' :: rest)) := by
            simp [printElems]
          rw [hprint]
          simp only [parseElems, skipWs_printJ, hp]
          rw [skipWs_cons_of_not_ws (by decide)]
          simp [hq]
    · intro fs rest hsz hne
      cases fs with
      | nil => exact absurd rfl hne
      | cons f fs' =>
        obtain ⟨k, v⟩ := f
        have hszV : jsize v ≤ fuel := by simp [jsizeFields] at hsz; omega
        have hmk : (⟨k.data⟩ : String) = k := rfl
        cases fs' with
        | nil =>
          have hp := ihP v (rbraceChar :: rest) hszV (by simp only [noDigitHead]; decide)
          have hprint : printFields [(k, v)] ++ rbraceChar :: rest
              = '"' :: (k.data.flatMap escapeChar
                  ++ '"' :: (':' :: (printJ v ++ rbraceChar :: rest))) := by
            simp [printFields, printStr]
          rw [hprint]
          simp only [parseFields]
          rw [skipWs_cons_of_not_ws (by decide)]
          have hps := parseStringBody_escape k.data
            (':' :: (printJ v ++ rbraceChar :: rest))
          simp only [hps]
          rw [skipWs_cons_of_not_ws (by decide)]
          simp only [skipWs_printJ, hp]
          rw [skipWs_cons_of_not_ws (by decide)]
          have hbc : ¬(rbraceChar = ',') := by decide
          simp [hmk, hbc]
        | cons f2 fs'' =>
          have hszF : jsizeFields (f2 :: fs'') ≤ fuel := by
            simp [jsizeFields] at hsz ⊢; omega
          have hrr := ihR (f2 :: fs'') rest hszF (by simp)
          have hp := ihP v
            (',' :: (printFields (f2 :: fs'') ++ rbraceChar :: rest)) hszV
            (by simp only [noDigitHead]; decide)
          have hprint : printFields ((k, v) :: f2 :: fs'') ++ rbraceChar :: rest
              = '"' :: (k.data.flatMap escapeChar
                  ++ '"' :: (':' :: (printJ v
                    ++ ',' :: (printFields (f2 :: fs'') ++ rbraceChar :: rest)))) := by
            simp [printFields, printStr]
          rw [hprint]
          simp only [parseFields]
          rw [skipWs_cons_of_not_ws (by decide)]
          have hps := parseStringBody_escape k.data
            (':' :: (printJ v ++ ',' :: (printFields (f2 :: fs'') ++ rbraceChar :: rest)))
          simp only [hps]
          rw [skipWs_cons_of_not_ws (by decide)]
          simp only [skipWs_printJ, hp]
          rw [skipWs_cons_of_not_ws (by decide)]
          simp [hmk, hrr]

mutual

theorem jsize_le_length : ∀ j : Json, jsize j ≤ (printJ j).length
  | .null => by simp [jsize, printJ]
  | .bool b => by cases b <;> simp [jsize, printJ]
  | .num i => by
    obtain ⟨c, cs, hc, -, -, -⟩ := printJ_cons (.num i)
    simp [jsize, hc]
  | .str s => by
    obtain ⟨c, cs, hc, -, -, -⟩ := printJ_cons (.str s)
    simp [jsize, hc]
  | .arr es => by
    have h := jsizeList_le_length es
    simp only [jsize, printJ, List.length_cons, List.length_append,
      List.length_singleton]
    omega
  | .obj fs => by
    have h := jsizeFields_le_length fs
    simp only [jsize, printJ, List.length_cons, List.length_append,
      List.length_singleton]
    omega

theorem jsizeList_le_length : ∀ es : List Json,
    jsizeList es ≤ (printElems es).length + 1
  | [] => by simp [jsizeList]
  | [e] => by
    have h := jsize_le_length e
    simp only [jsizeList, printElems]
    omega
  | e :: e2 :: es => by
    have h1 := jsize_le_length e
    have h2 := jsizeList_le_length (e2 :: es)
    simp only [jsizeList] at h2
    simp only [jsizeList, printElems, List.length_append, List.length_cons]
    omega

theorem jsizeFields_le_length : ∀ fs : List (String × Json),
    jsizeFields fs ≤ (printFields fs).length + 1
  | [] => by simp [jsizeFields]
  | [(k, v)] => by
    have h := jsize_le_length v
    simp only [jsizeFields, printFields, List.length_append, List.length_cons]
    omega
  | (k, v) :: f2 :: fs => by
    have h1 := jsize_le_length v
    have h2 := jsizeFields_le_length (f2 :: fs)
    simp only [jsizeFields] at h2
    simp only [jsizeFields, printFields, List.length_append, List.length_cons]
    omega

end

theorem jsonParse_stringifyJ (j : Json) : jsonParse (stringifyJ j) = some j := by
  have hsz : jsize j ≤ (printJ j).length + 1 := by
    have := jsize_le_length j; omega
  have hmain := (parse_print ((printJ j).length + 1)).1 j [] hsz trivial
  rw [List.append_nil] at hmain
  have hdata : (stringifyJ j).data = printJ j := rfl
  have hsw : skipWs (printJ j) = printJ j := by
    have h := skipWs_printJ j []
    simpa using h
  simp only [jsonParse, hdata, hsw, hmain]
  simp [skipWs]

theorem char_valid_range (c : Char) :
    c.toNat < 55296 ∨ (57343 < c.toNat ∧ c.toNat < 1114112) := c.valid

set_option maxRecDepth 8000 in
theorem utf8_decode_encode_char (c : Char) (rest : List Nat) :
    utf8DecodeChars (utf8EncodeChar c ++ rest) = c :: utf8DecodeChars rest := by
  have hval := char_valid_range c
  by_cases h1 : c.toNat < 128
  · have he : utf8EncodeChar c = [c.toNat] := by simp [utf8EncodeChar, h1]
    rw [he]
    rw [utf8DecodeChars.eq_def]
    simp [h1]
  by_cases h2 : c.toNat < 2048
  · have he : utf8EncodeChar c = [192 + c.toNat / 64, 128 + c.toNat % 64] := by
      simp [utf8EncodeChar, h1, h2]
    rw [he]
    have hb0a : ¬(192 + c.toNat / 64 < 128) := by omega
    have hb0b : ¬(192 + c.toNat / 64 < 194) := by omega
    have hb0c : 192 + c.toNat / 64 < 224 := by omega
    have hb1 : 128 ≤ 128 + c.toNat % 64 ∧ 128 + c.toNat % 64 < 192 := by omega
    have hc : Char.ofNat ((192 + c.toNat / 64 - 192) * 64
        + (128 + c.toNat % 64 - 128)) = c := by
      rw [show (192 + c.toNat / 64 - 192) * 64 + (128 + c.toNat % 64 - 128)
          = c.toNat from by omega]
      exact Char.ofNat_toNat c
    rw [utf8DecodeChars.eq_def]
    simp [hb0a, hb0b, hb0c, hb1]
    rw [show c.toNat / 64 * 64 + c.toNat % 64 = c.toNat from by omega]
    exact Char.ofNat_toNat c
  by_cases h3 : c.toNat < 65536
  · have he : utf8EncodeChar c
        = [224 + c.toNat / 4096, 128 + c.toNat / 64 % 64, 128 + c.toNat % 64] := by
      simp [utf8EncodeChar, h1, h2, h3]
    rw [he]
    have hb0a : ¬(224 + c.toNat / 4096 < 128) := by omega
    have hb0b : ¬(224 + c.toNat / 4096 < 194) := by omega
    have hb0c : ¬(224 + c.toNat / 4096 < 224) := by omega
    have hb0d : 224 + c.toNat / 4096 < 240 := by omega
    have hb12 : 128 ≤ 128 + c.toNat / 64 % 64 ∧ 128 + c.toNat / 64 % 64 < 192 ∧
        128 ≤ 128 + c.toNat % 64 ∧ 128 + c.toNat % 64 < 192 := by omega
    have hvd : (224 + c.toNat / 4096 - 224) * 4096
        + (128 + c.toNat / 64 % 64 - 128) * 64 + (128 + c.toNat % 64 - 128)
        = c.toNat := by omega
    have hcond : 2048 ≤ (224 + c.toNat / 4096 - 224) * 4096
        + (128 + c.toNat / 64 % 64 - 128) * 64 + (128 + c.toNat % 64 - 128) ∧
        ((224 + c.toNat / 4096 - 224) * 4096
          + (128 + c.toNat / 64 % 64 - 128) * 64 + (128 + c.toNat % 64 - 128)
            < 55296 ∨
         57343 < (224 + c.toNat / 4096 - 224) * 4096
          + (128 + c.toNat / 64 % 64 - 128) * 64 + (128 + c.toNat % 64 - 128)) := by
      rw [hvd]
      exact ⟨by omega, by rcases hval with h | h; exact Or.inl h; exact Or.inr h.1⟩
    have hc : Char.ofNat ((224 + c.toNat / 4096 - 224) * 4096
        + (128 + c.toNat / 64 % 64 - 128) * 64 + (128 + c.toNat % 64 - 128)) = c := by
      rw [hvd]; exact Char.ofNat_toNat c
    rw [utf8DecodeChars.eq_def]
    simp [hb0a, hb0b, hb0c, hb0d, hb12]
    rw [show c.toNat / 4096 * 4096 + c.toNat / 64 % 64 * 64 + c.toNat % 64
        = c.toNat from by omega]
    have hcondn : 2048 ≤ c.toNat ∧ (c.toNat < 55296 ∨ 57343 < c.toNat) :=
      ⟨by omega, by
        rcases hval with h | h
        · exact Or.inl h
        · exact Or.inr h.1⟩
    simp [hcondn]
  · have h4 : c.toNat < 1114112 := by rcases hval with h | h; omega; exact h.2
    have he : utf8EncodeChar c
        = [240 + c.toNat / 262144, 128 + c.toNat / 4096 % 64,
           128 + c.toNat / 64 % 64, 128 + c.toNat % 64] := by
      simp [utf8EncodeChar, h1, h2, h3]
    rw [he]
    have hb0a : ¬(240 + c.toNat / 262144 < 128) := by omega
    have hb0b : ¬(240 + c.toNat / 262144 < 194) := by omega
    have hb0c : ¬(240 + c.toNat / 262144 < 224) := by omega
    have hb0d : ¬(240 + c.toNat / 262144 < 240) := by omega
    have hb0e : 240 + c.toNat / 262144 < 245 := by omega
    have hb123 : 128 ≤ 128 + c.toNat / 4096 % 64 ∧ 128 + c.toNat / 4096 % 64 < 192 ∧
        128 ≤ 128 + c.toNat / 64 % 64 ∧ 128 + c.toNat / 64 % 64 < 192 ∧
        128 ≤ 128 + c.toNat % 64 ∧ 128 + c.toNat % 64 < 192 := by omega
    have hvd : (240 + c.toNat / 262144 - 240) * 262144
        + (128 + c.toNat / 4096 % 64 - 128) * 4096
        + (128 + c.toNat / 64 % 64 - 128) * 64 + (128 + c.toNat % 64 - 128)
        = c.toNat := by omega
    have hcond : 65536 ≤ (240 + c.toNat / 262144 - 240) * 262144
        + (128 + c.toNat / 4096 % 64 - 128) * 4096
        + (128 + c.toNat / 64 % 64 - 128) * 64 + (128 + c.toNat % 64 - 128) ∧
        (240 + c.toNat / 262144 - 240) * 262144
        + (128 + c.toNat / 4096 % 64 - 128) * 4096
        + (128 + c.toNat / 64 % 64 - 128) * 64 + (128 + c.toNat % 64 - 128)
          < 1114112 := by
      rw [hvd]; exact ⟨by omega, h4⟩
    have hc : Char.ofNat ((240 + c.toNat / 262144 - 240) * 262144
        + (128 + c.toNat / 4096 % 64 - 128) * 4096
        + (128 + c.toNat / 64 % 64 - 128) * 64 + (128 + c.toNat % 64 - 128)) = c := by
      rw [hvd]; exact Char.ofNat_toNat c
    rw [utf8DecodeChars.eq_def]
    simp [hb0a, hb0b, hb0c, hb0d, hb0e, hb123]
    rw [show c.toNat / 262144 * 262144 + c.toNat / 4096 % 64 * 4096
        + c.toNat / 64 % 64 * 64 + c.toNat % 64 = c.toNat from by omega]
    have hcondn : 65536 ≤ c.toNat ∧ c.toNat < 1114112 := ⟨by omega, h4⟩
    simp [hcondn]

theorem utf8_decode_encode (cs : List Char) :
    utf8DecodeChars (cs.flatMap utf8EncodeChar) = cs := by
  induction cs with
  | nil => rfl
  | cons c cs ih =>
    rw [List.flatMap_cons, utf8_decode_encode_char, ih]

theorem utf8EncodeChar_lt (c : Char) : ∀ b ∈ utf8EncodeChar c, b < 256 := by
  have hval := char_valid_range c
  intro b hb
  by_cases h1 : c.toNat < 128
  · simp [utf8EncodeChar, h1] at hb; omega
  by_cases h2 : c.toNat < 2048
  · simp [utf8EncodeChar, h1, h2] at hb; rcases hb with h | h <;> omega
  by_cases h3 : c.toNat < 65536
  · simp [utf8EncodeChar, h1, h2, h3] at hb
    rcases hb with h | h | h <;> omega
  · have h4 : c.toNat < 1114112 := by rcases hval with h | h; omega; exact h.2
    simp [utf8EncodeChar, h1, h2, h3] at hb
    rcases hb with h | h | h | h <;> omega

theorem utf8Encode_lt (s : String) : ∀ b ∈ utf8Encode s, b < 256 := by
  intro b hb
  simp only [utf8Encode, List.mem_flatMap] at hb
  obtain ⟨c, -, hc⟩ := hb
  exact utf8EncodeChar_lt c b hc

theorem stdAlphabet_length : stdAlphabet.length = 64 := rfl

theorem b64Char_lt_ne_eq : ∀ i : Fin 64, b64Char i.val ≠ '=' := by decide

theorem b64Char_ne_eq (v : Nat) : b64Char v ≠ '=' := by
  by_cases h : v < 64
  · exact b64Char_lt_ne_eq ⟨v, h⟩
  · have hlen : stdAlphabet.length ≤ v := by rw [stdAlphabet_length]; omega
    rw [b64Char, List.getD_eq_default _ _ hlen]
    decide

theorem b64CharVal_b64Char_fin :
    ∀ i : Fin 64, b64CharVal (b64Char i.val) = some i.val := by decide

theorem b64CharVal_b64Char {v : Nat} (h : v < 64) :
    b64CharVal (b64Char v) = some v := b64CharVal_b64Char_fin ⟨v, h⟩

theorem fromUrlSafe_toUrlSafe_fin :
    ∀ i : Fin 64, fromUrlSafe (toUrlSafe (b64Char i.val)) = b64Char i.val := by
  decide

theorem toUrlSafe_ne_eq {c : Char} (h : c ≠ '=') : toUrlSafe c ≠ '=' := by
  unfold toUrlSafe
  by_cases h1 : c = '+'
  · simp [h1]
  by_cases h2 : c = '/'
  · simp [h1, h2]
  · simp [h1, h2, h]

theorem btoaChunks_lt64 : ∀ bs : List Nat, (∀ b ∈ bs, b < 256) →
    ∀ v ∈ btoaChunks bs, v < 64
  | [] => by simp [btoaChunks]
  | [b0] => by
    intro h v hv
    have h0 : b0 < 256 := h b0 (by simp)
    simp [btoaChunks] at hv
    rcases hv with h | h <;> omega
  | [b0, b1] => by
    intro h v hv
    have h0 : b0 < 256 := h b0 (by simp)
    have h1 : b1 < 256 := h b1 (by simp)
    simp [btoaChunks] at hv
    rcases hv with h | h | h <;> omega
  | b0 :: b1 :: b2 :: rest => by
    intro h v hv
    have h0 : b0 < 256 := h b0 (by simp)
    have h1 : b1 < 256 := h b1 (by simp)
    have h2 : b2 < 256 := h b2 (by simp)
    have hrec := btoaChunks_lt64 rest (fun x hx => h x (by simp [hx]))
    simp [btoaChunks] at hv
    rcases hv with h | h | h | h | h
    · omega
    · omega
    · omega
    · omega
    · exact hrec v h

theorem btoaChunks_length : ∀ bs : List Nat,
    (btoaChunks bs).length = 4 * (bs.length / 3) +
      (if bs.length % 3 = 0 then 0 else bs.length % 3 + 1)
  | [] => by simp [btoaChunks]
  | [_] => by simp [btoaChunks]
  | [_, _] => by simp [btoaChunks]
  | b0 :: b1 :: b2 :: rest => by
    have ih := btoaChunks_length rest
    simp only [btoaChunks, List.length_cons, ih]
    split_ifs <;> omega

theorem atobCore_btoaChunks : ∀ bs : List Nat, (∀ b ∈ bs, b < 256) →
    atobCore (btoaChunks bs) = some bs
  | [] => by simp [btoaChunks, atobCore]
  | [b0] => by
    intro h
    have h0 : b0 < 256 := h b0 (by simp)
    simp [btoaChunks, atobCore]
    omega
  | [b0, b1] => by
    intro h
    have h0 : b0 < 256 := h b0 (by simp)
    have h1 : b1 < 256 := h b1 (by simp)
    simp [btoaChunks, atobCore]
    constructor <;> omega
  | b0 :: b1 :: b2 :: rest => by
    intro h
    have h0 : b0 < 256 := h b0 (by simp)
    have h1 : b1 < 256 := h b1 (by simp)
    have h2 : b2 < 256 := h b2 (by simp)
    have hrec := atobCore_btoaChunks rest (fun x hx => h x (by simp [hx]))
    simp only [btoaChunks, atobCore, hrec]
    have e0 : b0 / 4 * 4 + (b0 % 4 * 16 + b1 / 16) / 16 = b0 := by omega
    have e1 : (b0 % 4 * 16 + b1 / 16) % 16 * 16
        + (b1 % 16 * 4 + b2 / 64) / 4 = b1 := by omega
    have e2 : (b1 % 16 * 4 + b2 / 64) % 4 * 64 + b2 % 64 = b2 := by omega
    simp [e0, e1, e2]

theorem decodeAlphabet_map : ∀ vs : List Nat, (∀ v ∈ vs, v < 64) →
    decodeAlphabet (vs.map b64Char) = some vs := by
  intro vs
  induction vs with
  | nil => intro _; rfl
  | cons v vs ih =>
    intro h
    have hv : v < 64 := h v (by simp)
    simp [decodeAlphabet, b64CharVal_b64Char hv,
      ih (fun x hx => h x (by simp [hx]))]

theorem dropWhile_all_eq (t : List Char) : ∀ p : List Char,
    (∀ c ∈ p, c = '=') →
    (p ++ t).dropWhile (fun c => c = '=') = t.dropWhile (fun c => c = '=') := by
  intro p
  induction p with
  | nil => intro _; rfl
  | cons c p ih =>
    intro h
    have hc : c = '=' := h c (by simp)
    simp only [List.cons_append, List.dropWhile_cons, hc]
    simp [ih (fun x hx => h x (by simp [hx]))]

theorem dropWhile_none_eq (xs : List Char) (h : ∀ c ∈ xs, ¬(c = '=')) :
    xs.dropWhile (fun c => c = '=') = xs := by
  cases xs with
  | nil => rfl
  | cons c t =>
    have hc := h c (by simp)
    simp [List.dropWhile_cons, hc]

theorem removeTrailingEq_append (xs p : List Char)
    (hx : ∀ c ∈ xs, ¬(c = '=')) (hp : ∀ c ∈ p, c = '=') :
    removeTrailingEq (xs ++ p) = xs := by
  unfold removeTrailingEq
  rw [List.reverse_append,
    dropWhile_all_eq _ p.reverse (fun c hc => hp c (List.mem_reverse.mp hc)),
    dropWhile_none_eq xs.reverse (fun c hc => hx c (List.mem_reverse.mp hc)),
    List.reverse_reverse]

theorem b64u_eq_chunks (bs : List Nat) :
    (b64u bs).data = (btoaChunks bs).map (fun v => toUrlSafe (b64Char v)) := by
  have hx : ∀ c ∈ (btoaChunks bs).map (fun v => toUrlSafe (b64Char v)),
      ¬(c = '=') := by
    intro c hc
    simp only [List.mem_map] at hc
    obtain ⟨v, -, hv⟩ := hc
    rw [← hv]
    exact toUrlSafe_ne_eq (b64Char_ne_eq v)
  have heqp : toUrlSafe '=' = '=' := by decide
  show removeTrailingEq ((btoa bs).map toUrlSafe) = _
  unfold btoa
  rw [List.map_append, List.map_map]
  by_cases h1 : bs.length % 3 = 1
  · rw [if_pos h1]
    exact removeTrailingEq_append _ _ hx (by simp [heqp])
  by_cases h2 : bs.length % 3 = 2
  · rw [if_neg h1, if_pos h2]
    exact removeTrailingEq_append _ _ hx (by simp [heqp])
  · rw [if_neg h1, if_neg h2]
    have := removeTrailingEq_append
      ((btoaChunks bs).map (fun v => toUrlSafe (b64Char v))) [] hx (by simp)
    simpa using this

theorem stripPad_no_eq (cs : List Char) (h : ∀ c ∈ cs, ¬(c = '=')) :
    stripPad cs = cs := by
  unfold stripPad
  by_cases hl : cs.length % 4 ≠ 0
  · rw [if_pos hl]
  · rw [if_neg hl]
    cases hrev : cs.reverse with
    | nil => rfl
    | cons c1 t =>
      have hc1 : ¬(c1 = '=') := h c1 (by rw [← List.mem_reverse, hrev]; simp)
      cases t with
      | nil => simp [hc1]
      | cons c2 t2 => simp [hc1]

theorem stripPad_one (xs : List Char) (hx : ∀ c ∈ xs, ¬(c = '='))
    (hlen : (xs.length + 1) % 4 = 0) :
    stripPad (xs ++ ['=']) = xs := by
  unfold stripPad
  rw [if_neg (by simp; omega)]
  have hrev : (xs ++ ['=']).reverse = '=' :: xs.reverse := by simp
  rw [hrev]
  cases hxs : xs.reverse with
  | nil =>
    have : xs = [] := by simpa using congrArg List.reverse hxs
    simp [this]
  | cons c t =>
    have hc : ¬(c = '=') := hx c (by rw [← List.mem_reverse, hxs]; simp)
    have hxseq : xs = t.reverse ++ [c] := by
      have h2 := congrArg List.reverse hxs
      simpa using h2
    simp [hc, hxseq]

theorem stripPad_two (xs : List Char) (hlen : (xs.length + 2) % 4 = 0) :
    stripPad (xs ++ ['=', '=']) = xs := by
  unfold stripPad
  rw [if_neg (by simp; omega)]
  have hrev : (xs ++ ['=', '=']).reverse = '=' :: '=' :: xs.reverse := by simp
  rw [hrev]
  simp [List.reverse_reverse]

theorem atob_decode (bs : List Nat) (h : ∀ b ∈ bs, b < 256)
    (input : List Char)
    (hstrip : stripPad input = (btoaChunks bs).map b64Char)
    (hmod : ¬(((btoaChunks bs).map b64Char).length % 4 = 1)) :
    atob input = some bs := by
  simp only [atob]
  rw [hstrip, if_neg hmod, decodeAlphabet_map _ (btoaChunks_lt64 bs h)]
  exact atobCore_btoaChunks bs h

theorem ub64_b64u (bs : List Nat) (h : ∀ b ∈ bs, b < 256) :
    ub64 (b64u bs) = some bs := by
  have h64 := btoaChunks_lt64 bs h
  have hdata := b64u_eq_chunks bs
  have hmap : (b64u bs).data.map fromUrlSafe = (btoaChunks bs).map b64Char := by
    rw [hdata, List.map_map]
    apply List.map_congr_left
    intro v hv
    exact fromUrlSafe_toUrlSafe_fin ⟨v, h64 v hv⟩
  have hnoeq : ∀ c ∈ (btoaChunks bs).map b64Char, ¬(c = '=') := by
    intro c hc
    simp only [List.mem_map] at hc
    obtain ⟨v, -, rfl⟩ := hc
    exact b64Char_ne_eq v
  have hlen : (b64u bs).length = (btoaChunks bs).length := by
    show (b64u bs).data.length = _
    rw [hdata]
    simp
  have hmaplen : ((btoaChunks bs).map b64Char).length = (btoaChunks bs).length := by
    simp
  have hchlen := btoaChunks_length bs
  simp only [ub64]
  rw [hlen, hmap]
  by_cases h3a : bs.length % 3 = 0
  · have hc4 : (btoaChunks bs).length % 4 = 0 := by
      rw [hchlen, if_pos h3a]
      omega
    rw [if_pos hc4, List.append_nil]
    exact atob_decode bs h _ (stripPad_no_eq _ hnoeq) (by omega)
  by_cases h3b : bs.length % 3 = 1
  · have hc4 : (btoaChunks bs).length % 4 = 2 := by
      rw [hchlen, if_neg h3a]
      omega
    rw [if_neg (by omega)]
    have hpad : List.replicate (4 - (btoaChunks bs).length % 4) '='
        = ['=', '='] := by
      rw [hc4]
      rfl
    rw [hpad]
    exact atob_decode bs h _
      (stripPad_two _ (by rw [hmaplen]; omega)) (by omega)
  · have h3c : bs.length % 3 = 2 := by omega
    have hc4 : (btoaChunks bs).length % 4 = 3 := by
      rw [hchlen, if_neg h3a]
      omega
    rw [if_neg (by omega)]
    have hpad : List.replicate (4 - (btoaChunks bs).length % 4) '=' = ['='] := by
      rw [hc4]
      rfl
    rw [hpad]
    exact atob_decode bs h _
      (stripPad_one _ hnoeq (by rw [hmaplen]; omega)) (by omega)

/-- C7: the envelope codec is reversible — for every JSON-representable
envelope `e` (the `Json` model: structured values with integer
numerals, which covers all protocol envelopes), decoding the encoded
form recovers `e`: `decJ (encJ e) = some e`, where `encJ` is
base64url-of-UTF-8-of-JSON and `decJ` its inverse. -/
theorem codec_round_trip (e : Json) : decJ (encJ e) = some e := by
  simp only [encJ, decJ]
  rw [ub64_b64u _ (utf8Encode_lt (stringifyJ e))]
  have hutf : utf8DecodeChars (utf8Encode (stringifyJ e))
      = (stringifyJ e).data := by
    simp only [utf8Encode]
    exact utf8_decode_encode (stringifyJ e).data
  show jsonParse ⟨utf8DecodeChars (utf8Encode (stringifyJ e))⟩ = some e
  rw [hutf]
  exact jsonParse_stringifyJ e

/-- C8 counterexample: the claim says `parseReturnHash` either returns
an envelope or null for every hash string and never throws; but on a
hash whose `state` is present and whose `vp_token` is not valid JSON,
the code reaches `JSON.parse(vpToken)`, which throws — modelled as
`Except.error`. -/
theorem parse_return_hash_can_throw :
    parseReturnHash "state=s&vp_token=x&smart_artifacts=1" = .error () := by
  rfl

/-- C8 (amended): for every hash without a (non-empty) `state`
parameter — in particular the empty hash, a bare `#`, and ordinary
unrelated fragments — `parseReturnHash` returns null without throwing;
when `state` is present it produces the expected error or success
envelope (two concrete instances below), but it propagates the
`JSON.parse` exception when `vp_token` / `smart_artifacts` are present
yet malformed. -/
theorem parse_return_hash_amended (hash : String)
    (h : hashStateParam hash = none ∨ hashStateParam hash = some "") :
    parseReturnHash hash = .ok none ∧
    parseReturnHash "#state=abc&error=access_denied&error_description=denied"
      = .ok (some (.err "abc" "access_denied" (some "denied"))) ∧
    parseReturnHash "#state=abc&vp_token=%7B%7D&smart_artifacts=%5B%5D"
      = .ok (some (.success "abc" (.obj []) (.arr []))) := by
  refine ⟨?_, by rfl, by rfl⟩
  unfold parseReturnHash
  unfold hashStateParam at h
  by_cases h0 : hash = "" ∨ hash = "#"
  · rw [if_pos h0]
  · rw [if_neg h0]
    rw [if_neg h0] at h
    rcases h with h | h
    · simp only [h]
    · simp only [h]
      simp

/-- C8 amended witness: a hash with an unrelated fragment yields null
(and the concrete envelope instances hold). -/
theorem parse_return_hash_amended_witness :
    parseReturnHash "foo=bar" = .ok none ∧
    parseReturnHash "#state=abc&error=access_denied&error_description=denied"
      = .ok (some (.err "abc" "access_denied" (some "denied"))) ∧
    parseReturnHash "#state=abc&vp_token=%7B%7D&smart_artifacts=%5B%5D"
      = .ok (some (.success "abc" (.obj []) (.arr []))) :=
  parse_return_hash_amended "foo=bar" (Or.inl (by rfl))
